import Mathlib

/-!
Verification of the LinkedIn feed extraction core (`ai_agent.py`,
class `LinkedInDataExtractor`).

The Python code is shallowly embedded: Python `str` values become Lean
`String` (a structure over `List Char`), Python dict-shaped records become
Lean structures whose optional keys are `Option` fields, byte strings become
`List Nat`, floats (the confidence value and the quality score) become `ℚ`,
and the BeautifulSoup document is modeled as an explicit HTML node tree.
Python string primitives (`strip`, `split`, `join`, slicing, `startswith`,
`isdigit`) are re-implemented character-by-character so that every
definition is executable and reduces in the kernel.  `str.strip()` strips
the four ASCII whitespace characters recognised by `Char.isWhitespace`.
-/

/-! ## Python string primitives -/

/-- Characters of `str.strip()`: drop whitespace from both ends. -/
def stripChars (l : List Char) : List Char :=
  ((l.dropWhile Char.isWhitespace).reverse.dropWhile Char.isWhitespace).reverse

/-- Python `s.strip()`. -/
def pyStrip (s : String) : String := ⟨stripChars s.data⟩

/-- Python `sep.join(parts)`. -/
def pyJoin (sep : String) : List String → String
  | [] => ""
  | [s] => s
  | s :: rest => s ++ sep ++ pyJoin sep rest

/-- Splitting a character list at every occurrence of `c` (Python
`str.split(c)` semantics: `n` separators yield `n+1` groups). -/
def splitCharList (c : Char) : List Char → List (List Char)
  | [] => [[]]
  | ch :: rest =>
    match splitCharList c rest with
    | [] => [[ch]]
    | grp :: gs => if ch = c then [] :: grp :: gs else (ch :: grp) :: gs

/-- Python `s.split(c)` for a one-character separator. -/
def pySplit (c : Char) (s : String) : List String :=
  (splitCharList c s.data).map (fun l => ⟨l⟩)

/-- Python `c in s` for a single character. -/
def pyContains (c : Char) (s : String) : Bool := s.data.contains c

/-- Python `s.startswith(pre)`. -/
def pyStartsWith (s pre : String) : Bool := pre.data.isPrefixOf s.data

/-- Python `s[:n]` for `0 ≤ n`. -/
def pySlice (s : String) (n : Nat) : String := ⟨s.data.take n⟩

/-- Python `s.isdigit()` restricted to ASCII digits. -/
def pyIsDigit (s : String) : Bool := !s.data.isEmpty && s.data.all Char.isDigit

/-- Substring test on character lists. -/
def isSubstr (needle : List Char) : List Char → Bool
  | [] => needle.isEmpty
  | c :: rest => needle.isPrefixOf (c :: rest) || isSubstr needle rest

/-- Maximal runs of characters satisfying `p` (used for whitespace-separated
class tokens and for the `\w+` tokenisation of `_find_common_words`). -/
def tokensBy (p : Char → Bool) : List Char → List (List Char)
  | [] => []
  | c :: rest =>
    if p c then
      match rest, tokensBy p rest with
      | r :: _, t :: ts => if p r then (c :: t) :: ts else [c] :: t :: ts
      | _, ts => [c] :: ts
    else tokensBy p rest

/-! ## HTML document model

The BeautifulSoup tree is modeled as a node tree: parsing of raw HTML
text is outside the embedding, the extractor consumes the parsed tree
(a list of top-level nodes).  Traversals are in document order
(depth-first, pre-order), matching `find_all` / `find` / `select`. -/

inductive Html where
  | text : String → Html
  | elem : (tag : String) → (attrs : List (String × String)) → (children : List Html) → Html
deriving Repr

mutual

/-- All string (text-node) contents of a subtree, in document order. -/
def htmlTexts : Html → List String
  | .text s => [s]
  | .elem _ _ cs => htmlTextsList cs

def htmlTextsList : List Html → List String
  | [] => []
  | c :: cs => htmlTexts c ++ htmlTextsList cs

end

mutual

/-- A subtree's nodes in document order (the root first). -/
def subtreeNodes : Html → List Html
  | .text s => [.text s]
  | .elem t a cs => .elem t a cs :: subtreeListNodes cs

def subtreeListNodes : List Html → List Html
  | [] => []
  | c :: cs => subtreeNodes c ++ subtreeListNodes cs

end

/-- Tag of an element node. -/
def Html.tagOf : Html → Option String
  | .text _ => none
  | .elem t _ _ => some t

/-- Attribute lookup (first occurrence of the key, as the HTML parser keeps). -/
def Html.attr (h : Html) (key : String) : Option String :=
  match h with
  | .text _ => none
  | .elem _ attrs _ => (attrs.find? (fun p => p.1 == key)).map (·.2)

/-- BeautifulSoup splits the `class` attribute into whitespace-separated
tokens. -/
def classListOf (h : Html) : List String :=
  match h.attr "class" with
  | some v => (tokensBy (fun c => !c.isWhitespace) v.data).map (fun l => ⟨l⟩)
  | none => []

/-- Tag match. -/
def tagIs (h : Html) (t : String) : Bool := h.tagOf == some t

/-- Exact attribute-value match, as `find(tag, {key: value})` uses. -/
def attrIs (h : Html) (k v : String) : Bool := h.attr k == some v

/-- `class_=cls` matching of `find`/`find_all`: `cls` is one of the class
tokens. -/
def hasClassToken (h : Html) (cls : String) : Bool :=
  (classListOf h).contains cls

/-- CSS `[class*=sub]` matching as soupsieve implements it: the attribute
must exist and `sub` must be a substring of the space-joined token list. -/
def classAttrContains (h : Html) (sub : String) : Bool :=
  match h.attr "class" with
  | none => false
  | some _ => isSubstr sub.data (pyJoin " " (classListOf h)).data

/-- The two selector shapes used by the field extractor:
`tag` and `tag[class*="sub"]`. -/
inductive Sel where
  | tagOnly : String → Sel
  | tagClassSub : String → String → Sel
deriving Repr

def selMatches (s : Sel) (h : Html) : Bool :=
  match s with
  | .tagOnly t => tagIs h t
  | .tagClassSub t sub => tagIs h t && classAttrContains h sub

/-- Descendants of a node (document order, the node itself excluded),
the search space of `find`/`select` on a tag. -/
def descendants : Html → List Html
  | .text _ => []
  | .elem _ _ cs => subtreeListNodes cs

/-- `post.find(tag, {key: value})`. -/
def findTagAttr (post : Html) (t k v : String) : Option Html :=
  (descendants post).find? (fun h => tagIs h t && attrIs h k v)

/-- `post.find(tag, class_=cls)`. -/
def findTagClass (post : Html) (t cls : String) : Option Html :=
  (descendants post).find? (fun h => tagIs h t && hasClassToken h cls)

/-- `post.select(sel)`. -/
def selectAll (post : Html) (s : Sel) : List Html :=
  (descendants post).filter (selMatches s)

/-- `post.select_one(sel)`. -/
def selectOne (post : Html) (s : Sel) : Option Html :=
  (selectAll post s).head?

/-- `element.get_text(' ', strip=True)`: each descendant string stripped,
empty ones dropped, the rest joined with one space. -/
def getText (h : Html) : String :=
  pyJoin " " (((htmlTexts h).map pyStrip).filter (fun s => s != ""))

/-! ## Field extractor (`_extract_name` / `_extract_title` /
`_extract_period` / `_extract_details`) -/

def name_selectors : List Sel :=
  [.tagClassSub "span" "actor", .tagClassSub "span" "name",
   .tagClassSub "a" "actor", .tagClassSub "div" "actor"]

/-- The fallback loop of `_extract_name`. -/
def try_name_selectors (post : Html) : List Sel → String
  | [] => "N/A"
  | sel :: rest =>
    match selectOne post sel with
    | some el =>
      let name := getText el
      if name ≠ "" ∧ 1 < name.length ∧ ¬ pyIsDigit name then name
      else try_name_selectors post rest
    | none => try_name_selectors post rest

/-- `LinkedInDataExtractor._extract_name`. -/
def extract_name (post : Html) : String :=
  match findTagAttr post "span" "aria-hidden" "true" with
  | some el =>
    let name := getText el
    if name ≠ "" ∧ 1 < name.length then name
    else try_name_selectors post name_selectors
  | none => try_name_selectors post name_selectors

def title_selectors : List Sel :=
  [.tagClassSub "span" "description", .tagClassSub "div" "description",
   .tagClassSub "span" "title", .tagClassSub "div" "title"]

/-- The fallback loop of `_extract_title`. -/
def try_title_selectors (post : Html) : List Sel → String
  | [] => "No title found"
  | sel :: rest =>
    match selectOne post sel with
    | some el =>
      let t := getText el
      if t ≠ "" ∧ 1 < t.length then t
      else try_title_selectors post rest
    | none => try_title_selectors post rest

/-- `LinkedInDataExtractor._extract_title`. -/
def extract_title (post : Html) : String :=
  match findTagClass post "span" "update-components-actor__description" with
  | some el =>
    let t := getText el
    if t ≠ "" ∧ 1 < t.length then t
    else try_title_selectors post title_selectors
  | none => try_title_selectors post title_selectors

def period_selectors : List Sel :=
  [.tagClassSub "span" "time", .tagClassSub "span" "date",
   .tagOnly "time", .tagClassSub "span" "sub-description"]

/-- The fallback loop of `_extract_period`. -/
def try_period_selectors (post : Html) : List Sel → String
  | [] => "N/A"
  | sel :: rest =>
    match selectOne post sel with
    | some el =>
      let p := getText el
      if p ≠ "" ∧ 1 < p.length then p
      else try_period_selectors post rest
    | none => try_period_selectors post rest

/-- `LinkedInDataExtractor._extract_period`. -/
def extract_period (post : Html) : String :=
  match findTagClass post "span" "update-components-actor__sub-description" with
  | some el =>
    match findTagAttr el "span" "aria-hidden" "true" with
    | some sp =>
      let p := getText sp
      if p ≠ "" ∧ 1 < p.length then p
      else try_period_selectors post period_selectors
    | none => try_period_selectors post period_selectors
  | none => try_period_selectors post period_selectors

def detail_selectors : List Sel :=
  [.tagClassSub "div" "text", .tagClassSub "div" "content",
   .tagClassSub "div" "body", .tagOnly "p", .tagClassSub "span" "text"]

/-- Inner loop of the `_extract_details` fallback: all matches of one
selector, first with more than 10 characters of text. -/
def first_substantial : List Html → Option String
  | [] => none
  | el :: rest =>
    let d := getText el
    if d ≠ "" ∧ 10 < d.length then some d else first_substantial rest

/-- The fallback loop of `_extract_details`. -/
def try_detail_selectors (post : Html) : List Sel → String
  | [] => "N/A"
  | sel :: rest =>
    match first_substantial (selectAll post sel) with
    | some d => d
    | none => try_detail_selectors post rest

/-- `LinkedInDataExtractor._extract_details`. -/
def extract_details (post : Html) : String :=
  match findTagClass post "div" "feed-shared-inline-show-more-text" with
  | some el =>
    let d := getText el
    if d ≠ "" ∧ 1 < d.length then d
    else try_detail_selectors post detail_selectors
  | none => try_detail_selectors post detail_selectors

/-! ## Records and the post enumerator (`extract_linkedin_data`) -/

/-- One extracted record.  Keys that a given pipeline stage has not set
(`Company`, `Location`, `Post_Index`, `extraction_method`, `confidence`)
are `Option` fields holding `none`. -/
structure PostRecord where
  name : String
  title : String
  period : String
  details : String
  company : Option String := none
  location : Option String := none
  post_index : Option Nat := none
  extraction_method : Option String := none
  confidence : Option ℚ := none
deriving Repr, DecidableEq

/-- The body of the `for i, post in enumerate(post_containers)` loop for one
container: the guard `if name and name != 'N/A' and name.strip():` and the
appended dict. -/
def build_record (i : Nat) (post : Html) : Option PostRecord :=
  let name := extract_name post
  let title := extract_title post
  let period := extract_period post
  let details := extract_details post
  if name ≠ "" ∧ name ≠ "N/A" ∧ pyStrip name ≠ "" then
    some { name := pyStrip name,
           title := if title ≠ "" then pyStrip title else "N/A",
           period := if period ≠ "" then pyStrip period else "N/A",
           details := if details ≠ "" then pyStrip details else "N/A",
           post_index := some (i + 1) }
  else none

/-- The enumeration loop (the per-post `except` clause is unreachable in the
pure embedding: no step raises). -/
def extract_loop : Nat → List Html → List PostRecord
  | _, [] => []
  | i, post :: rest =>
    match build_record i post with
    | some r => r :: extract_loop (i + 1) rest
    | none => extract_loop (i + 1) rest

/-- `soup.find_all('div', class_=cls)` over the whole document. -/
def find_all_div_class (doc : List Html) (cls : String) : List Html :=
  (subtreeListNodes doc).filter (fun h => tagIs h "div" && hasClassToken h cls)

/-- Container discovery with the two fallback selectors. -/
def post_containers (doc : List Html) : List Html :=
  let c1 := find_all_div_class doc "feed-shared-update-v2"
  if c1.isEmpty then
    let c2 := find_all_div_class doc "feed-shared-update-v2__description"
    if c2.isEmpty then find_all_div_class doc "feed-shared-text"
    else c2
  else c1

/-- `LinkedInDataExtractor.extract_linkedin_data`, over the parsed tree. -/
def extract_linkedin_data (doc : List Html) : List PostRecord :=
  extract_loop 0 (post_containers doc)

/-- The single-post fragment of the spec's scenario:
`<div class="feed-shared-update-v2"><span aria-hidden="true">Jane Doe</span></div>`. -/
def janeDoeDoc : List Html :=
  [.elem "div" [("class", "feed-shared-update-v2")]
    [.elem "span" [("aria-hidden", "true")] [.text "Jane Doe"]]]

/-! ## AI-enhancement rows and the CSV response parser
(`_parse_csv_response`) -/

/-- One row parsed out of the collaborator's CSV answer.  The cleanup loop
of `_parse_csv_response` guarantees exactly these four keys. -/
structure CsvRow where
  id : String
  name : String
  company : String
  location : String
deriving Repr, DecidableEq

/-- The line-collecting loop of `_parse_csv_response`.  Note the first
branch tests `startswith('```csv') or startswith('```')`, so the closing
fence also takes it and the `break` branch below is unreachable. -/
def collect_csv_lines : List String → Bool → List String
  | [], _ => []
  | l :: rest, inCsv =>
    let line := pyStrip l
    if pyStartsWith line "```csv" || pyStartsWith line "```" then
      collect_csv_lines rest true
    else if pyStartsWith line "```" && inCsv then []
    else if inCsv && line != "" then line :: collect_csv_lines rest inCsv
    else if !inCsv && pyContains ',' line then line :: collect_csv_lines rest inCsv
    else collect_csv_lines rest inCsv

/-- States of Python's `csv.reader` scanner (`Modules/_csv.c`,
default dialect: delimiter `,`, quote `"`, doubled quotes, no escape
character, non-strict): `eatCrnl` is the state after an unquoted `'\r'` or
`'\n'` ended the record, in which any further ordinary character on the
same input line raises `Error("new-line character seen in unquoted
field")`. -/
inductive CsvState where
  | startRecord | startField | inField | inQuoted | quoteInQuoted | eatCrnl
deriving Repr, DecidableEq

/-- The reader's working state: scanner state, the field being built, the
fields of the record being built, and the finished records. -/
structure CsvMachine where
  st : CsvState
  field : List Char
  row : List String
  rows : List (List String)
deriving Repr

/-- `parse_save_field`. -/
def csvSaveField (m : CsvMachine) : CsvMachine :=
  { m with field := [], row := m.row ++ [⟨m.field⟩] }

/-- A record is returned when the per-record loop falls back to
`START_RECORD`. -/
def csvEmitRecord (m : CsvMachine) : CsvMachine :=
  { st := .startRecord, field := [], row := [], rows := m.rows ++ [m.row] }

/-- `START_FIELD` handling (also reached by fallthrough from
`START_RECORD` on an ordinary character). -/
def csvStartFieldChar (m : CsvMachine) (c : Char) : Option CsvMachine :=
  if c = '\n' ∨ c = '\r' then some { (csvSaveField m) with st := .eatCrnl }
  else if c = '"' then some { m with st := .inQuoted }
  else if c = ',' then some { (csvSaveField m) with st := .startField }
  else some { m with st := .inField, field := m.field ++ [c] }

/-- `parse_process_char` for one character of an input line.  `none` is a
raised `csv.Error`: a NUL character, or an ordinary character while in
`eatCrnl` (an unquoted carriage return ended the record mid-line). -/
def csvChar (m : CsvMachine) (c : Char) : Option CsvMachine :=
  if c = '\x00' then none
  else
    match m.st with
    | .startRecord =>
      if c = '\n' ∨ c = '\r' then some { m with st := .eatCrnl }
      else csvStartFieldChar m c
    | .startField => csvStartFieldChar m c
    | .inField =>
      if c = '\n' ∨ c = '\r' then some { (csvSaveField m) with st := .eatCrnl }
      else if c = ',' then some { (csvSaveField m) with st := .startField }
      else some { m with field := m.field ++ [c] }
    | .inQuoted =>
      if c = '"' then some { m with st := .quoteInQuoted }
      else some { m with field := m.field ++ [c] }
    | .quoteInQuoted =>
      if c = '"' then some { m with st := .inQuoted, field := m.field ++ ['"'] }
      else if c = ',' then some { (csvSaveField m) with st := .startField }
      else if c = '\n' ∨ c = '\r' then
        some { (csvSaveField m) with st := .eatCrnl }
      else some { m with st := .inField, field := m.field ++ [c] }
    | .eatCrnl =>
      if c = '\n' ∨ c = '\r' then some m
      else none

/-- `parse_process_char(self, '\0')`: the end-of-line marker fed after each
input line.  A record is returned whenever the state falls back to
`START_RECORD`; inside a quoted field the line break was already consumed
as content and the field continues on the next line. -/
def csvEOL (m : CsvMachine) : CsvMachine :=
  match m.st with
  | .startRecord => csvEmitRecord m
  | .startField => csvEmitRecord (csvSaveField m)
  | .inField => csvEmitRecord (csvSaveField m)
  | .inQuoted => m
  | .quoteInQuoted => csvEmitRecord (csvSaveField m)
  | .eatCrnl => csvEmitRecord m

/-- One line as the reader receives it: every character, then the
end-of-line marker. -/
def csvLine (m : CsvMachine) : List Char → Option CsvMachine
  | [] => some (csvEOL m)
  | c :: rest =>
    match csvChar m c with
    | some m' => csvLine m' rest
    | none => none

/-- `StringIO` iteration: segments split at `'\n'`, each keeping its
terminating `'\n'`; a trailing empty segment is not a line. -/
def attachNewlines : List (List Char) → List (List Char)
  | [] => []
  | [last] => if last.isEmpty then [] else [last]
  | seg :: rest => (seg ++ ['\n']) :: attachNewlines rest

def stringIOLines (content : List Char) : List (List Char) :=
  attachNewlines (splitCharList '\n' content)

def csvFeedLines (m : CsvMachine) : List (List Char) → Option CsvMachine
  | [] => some m
  | line :: rest =>
    match csvLine m line with
    | some m' => csvFeedLines m' rest
    | none => none

/-- `csv.reader(StringIO(content))`, all rows; `none` is a raised
`csv.Error`.  At end of input a pending field (an unterminated quoted
field, in the non-strict dialect) is saved and its record returned. -/
def csvParseContent (content : String) : Option (List (List String)) :=
  match csvFeedLines ⟨.startRecord, [], [], []⟩ (stringIOLines content.data) with
  | none => none
  | some m =>
    if m.field ≠ [] ∨ m.st = .inQuoted then
      some (csvEmitRecord (csvSaveField m)).rows
    else some m.rows

/-- Strip every leading/trailing occurrence of one character
(Python `str.strip(c)`). -/
def stripCharBoth (c : Char) (l : List Char) : List Char :=
  ((l.dropWhile (· = c)).reverse.dropWhile (· = c)).reverse

/-- The cleanup `row[field].strip().strip('"').strip("'")`. -/
def cleanValue (s : String) : String :=
  ⟨stripCharBoth '\'' (stripCharBoth '"' (stripChars s.data))⟩

/-- `csv.DictReader`'s row dict: keys from the header, values from the row,
`none` (Python `None`) for keys past the row's end, last duplicate key wins. -/
def dictReaderLookup (header row : List String) (key : String) :
    Option (Option String) :=
  (header.zip (row.map some ++ List.replicate (header.length - row.length) none)).foldl
    (fun acc p => if p.1 = key then some p.2 else acc) none

/-- One field of the cleanup loop: `if field in row and row[field]:`. -/
def clean_field (header row : List String) (field : String) : String :=
  match dictReaderLookup header row field with
  | some (some v) => if v ≠ "" then cleanValue v else "N/A"
  | _ => "N/A"

/-- The cleaned row built from the four required fields. -/
def clean_row (header row : List String) : CsvRow :=
  { id := clean_field header row "ID",
    name := clean_field header row "Name",
    company := clean_field header row "Company",
    location := clean_field header row "Location" }

/-- `response_text.strip().split('\n')`. -/
def response_lines (text : String) : List String :=
  pySplit '\n' (pyStrip text)

/-- The keep test of the filtering pass:
`',' in line and len(line.split(',')) >= 4`. -/
def valid_csv_line (l : String) : Bool :=
  pyContains ',' l && decide (4 ≤ (pySplit ',' l).length)

/-- `LinkedInDataExtractor._parse_csv_response`.  `none` models Python's
`return None`, reached either by the explicit early return (fewer than 2
valid lines) or by a `csv.Error` from the reader (a stray carriage return
in an unquoted field, or a NUL character) propagating to the catch-all
`except`, which also returns `None`. -/
def parse_csv_response (response_text : String) : Option (List CsvRow) :=
  let lines := response_lines response_text
  let collected := collect_csv_lines lines false
  let csvLines :=
    if collected.isEmpty then
      (lines.filter (fun l => pyStrip l != "" && pyContains ',' l)).map pyStrip
    else collected
  let filtered := csvLines.filter valid_csv_line
  if filtered.length < 2 then none
  else
    match csvParseContent (pyJoin "\n" filtered) with
    | none => none
    | some rows =>
      match rows with
      | [] => some []
      | header :: dataRows =>
        some ((dataRows.filter (fun r => !r.isEmpty)).map (clean_row header))

/-! ## Merge and metadata
(`_merge_ai_enhancement_with_original`, `_add_metadata`) -/

/-- The default-valued merged dict (`Company`/`Location` = sentinel), used
both when no AI data exists and when a record finds no match. -/
def default_enhanced (item : PostRecord) : PostRecord :=
  { name := item.name, title := item.title, period := item.period,
    details := item.details, company := some "N/A", location := some "N/A" }

/-- The `ai_lookup` dict keyed by stripped row name: rows whose stripped
name is empty are not inserted; a later row overwrites an earlier one. -/
def ai_lookup_map (rows : List CsvRow) : String → Option CsvRow :=
  rows.foldl
    (fun m r =>
      let n := pyStrip r.name
      if n ≠ "" then (fun k => if k = n then some r else m k) else m)
    (fun _ => none)

/-- The loop body of the merge: one original record, matched against the
lookup dict. -/
def merge_one (lookup : String → Option CsvRow) (item : PostRecord) :
    PostRecord :=
  match lookup (pyStrip item.name) with
  | some m =>
    { name := item.name, title := item.title, period := item.period,
      details := item.details,
      company := some m.company, location := some m.location }
  | none => default_enhanced item

/-- `LinkedInDataExtractor._merge_ai_enhancement_with_original`. -/
def merge_ai_enhancement_with_original
    (original : List PostRecord) (ai : List CsvRow) : List PostRecord :=
  if ai.isEmpty then original.map default_enhanced
  else original.map (merge_one (ai_lookup_map ai))

/-- The float 0.9 as the rational 9/10, given in lowest terms so that
record comparisons evaluate in the kernel. -/
def conf09 : ℚ := ⟨9, 10, by norm_num, by norm_num⟩

theorem conf09_eq : conf09 = 9 / 10 := by
  rw [conf09, Rat.mk'_eq_divInt, Rat.divInt_eq_div]
  norm_num

/-- `LinkedInDataExtractor._add_metadata`: tag method and confidence (the
float 0.9 as the rational 9/10) and default any absent
`Company`/`Location` to the sentinel. -/
def add_metadata (data : List PostRecord) (em : String) : List PostRecord :=
  data.map (fun item =>
    { item with
        extraction_method := some em,
        confidence := some conf09,
        company := some (item.company.getD "N/A"),
        location := some (item.location.getD "N/A") })

/-! ## AI enhancement entry points.  The collaborator call is external
input/output: it is modeled by an `Option String` argument, `none` covering
a missing client and a raised transport error (both end in `return None`),
`some text` a received response. -/

/-- `LinkedInDataExtractor._enhance_with_chatgpt` after the API call.
`if enhanced_data:` is falsy both for `None` and for an empty row list. -/
def enhance_with_chatgpt (response : Option String)
    (traditional_data : List PostRecord) : Option (List PostRecord) :=
  match response with
  | none => none
  | some text =>
    match parse_csv_response text with
    | some enhanced =>
      if enhanced.isEmpty then none
      else some (add_metadata
        (merge_ai_enhancement_with_original traditional_data enhanced)
        "traditional+ai_chatgpt")
    | none => none

/-- `LinkedInDataExtractor._enhance_with_gemini` after the API call. -/
def enhance_with_gemini (response : Option String)
    (traditional_data : List PostRecord) : Option (List PostRecord) :=
  match response with
  | none => none
  | some text =>
    match parse_csv_response text with
    | some enhanced =>
      if enhanced.isEmpty then none
      else some (add_metadata
        (merge_ai_enhancement_with_original traditional_data enhanced)
        "traditional+ai_gemini")
    | none => none

/-- `LinkedInDataExtractor.enhance_data_with_ai`: dispatch on the model
name; an unknown model skips enhancement and returns the input list. -/
def enhance_data_with_ai (response : Option String)
    (traditional_data : List PostRecord) (ai_model : String) :
    Option (List PostRecord) :=
  if ai_model = "chatgpt" then enhance_with_chatgpt response traditional_data
  else if ai_model = "gemini" then enhance_with_gemini response traditional_data
  else some traditional_data

/-! ## Formatter (`get_formatted_output`; its `max_width` parameter is
unused in the source and therefore omitted) -/

def fmt_columns : List String :=
  ["Name", "Title", "Period", "Details", "Company", "Location"]

/-- `item.get(col, '')` for the six fixed columns. -/
def record_get (r : PostRecord) (col : String) : String :=
  if col = "Name" then r.name
  else if col = "Title" then r.title
  else if col = "Period" then r.period
  else if col = "Details" then r.details
  else if col = "Company" then r.company.getD ""
  else if col = "Location" then r.location.getD ""
  else ""

/-- `30 if col in ['Name', 'Period', 'Location'] else 40 if col == 'Company'
else 60`. -/
def col_cap (col : String) : Nat :=
  if col = "Name" ∨ col = "Period" ∨ col = "Location" then 30
  else if col = "Company" then 40
  else 60

/-- `max(len(str(item.get(col, ''))) for item in data_list)` (the fold's
base 0 is never the winner on the nonempty lists the caller guards for). -/
def max_col_len (data : List PostRecord) (col : String) : Nat :=
  (data.map (fun r => (record_get r col).length)).foldl max 0

/-- `col_widths[col] = min(max_len + 2, cap)`. -/
def col_width (data : List PostRecord) (col : String) : Nat :=
  min (max_col_len data col + 2) (col_cap col)

/-- `f"{value:<{w}}"`: pad right with spaces to width `w`, never truncate. -/
def padTo (s : String) (w : Nat) : String :=
  s ++ ⟨List.replicate (w - s.length) ' '⟩

def header_line (data : List PostRecord) : String :=
  pyJoin " | " (fmt_columns.map (fun col => padTo col (col_width data col)))

def separator_line (data : List PostRecord) : String :=
  ⟨List.replicate (header_line data).length '-'⟩

/-- One data row: each value truncated to `width - 2` then padded. -/
def row_line (data : List PostRecord) (entry : PostRecord) : String :=
  pyJoin " | " (fmt_columns.map (fun col =>
    padTo (pySlice (record_get entry col) (col_width data col - 2))
      (col_width data col)))

/-- `LinkedInDataExtractor.get_formatted_output`. -/
def get_formatted_output (data : List PostRecord) : String :=
  if data.isEmpty then "No data to display"
  else pyJoin "\n"
    (header_line data :: separator_line data :: data.map (row_line data))

/-! ## Quality analyzer (`analyze_data`, `_find_common_words`).  The
wall-clock `extraction_timestamp` field is input/output and omitted. -/

def is_word_char (c : Char) : Bool := c.isAlphanum || c = '_'

/-- `re.findall(r'\b\w+\b', text.lower())`. -/
def find_tokens (s : String) : List String :=
  (tokensBy is_word_char (s.data.map Char.toLower)).map (fun l => ⟨l⟩)

/-- `word_count[word] = word_count.get(word, 0) + 1` on an insertion-ordered
dict modeled as an association list. -/
def bump_word (m : List (String × Nat)) (w : String) : List (String × Nat) :=
  if m.any (fun p => p.1 == w) then
    m.map (fun p => if p.1 == w then (p.1, p.2 + 1) else p)
  else m ++ [(w, 1)]

/-- `LinkedInDataExtractor._find_common_words` (at the default
`min_length=4`): counts, stable sort by count descending, top 10, keep
those occurring more than once. -/
def find_common_words (text_list : List String) : List String :=
  let wc := text_list.foldl
    (fun m text =>
      (find_tokens text).foldl
        (fun m' w => if 4 ≤ w.length then bump_word m' w else m') m)
    []
  let sorted_words := wc.mergeSort (fun a b => b.2 ≤ a.2)
  (sorted_words.take 10).filterMap (fun p => if 1 < p.2 then some p.1 else none)

/-- Round half to even (Python `round`), on rationals. -/
def rhe (q : ℚ) : ℤ :=
  if q - ⌊q⌋ < 1 / 2 then ⌊q⌋
  else if 1 / 2 < q - ⌊q⌋ then ⌊q⌋ + 1
  else if ⌊q⌋ % 2 = 0 then ⌊q⌋ else ⌊q⌋ + 1

/-- Python `round(x, 2)` on rationals. -/
def round2 (q : ℚ) : ℚ := (rhe (q * 100) : ℚ) / 100

/-- The analysis dict for a nonempty record list. -/
structure DataAnalysis where
  total_posts : Nat
  unique_names : Nat
  data_quality_score : ℚ
  insights : List String
  recommendations : List String
deriving Repr, DecidableEq

/-- `analyze_data` either reports `{"error": ...}` or the analysis dict. -/
inductive AnalysisResult where
  | err : String → AnalysisResult
  | ok : DataAnalysis → AnalysisResult
deriving Repr, DecidableEq

/-- `LinkedInDataExtractor.analyze_data`. -/
def analyze_data (data_list : List PostRecord) : AnalysisResult :=
  if data_list.isEmpty then .err "No data to analyze"
  else
    let names_complete := data_list.countP (fun item => item.name != "N/A")
    let titles_complete := data_list.countP (fun item => item.title != "N/A")
    let periods_complete := data_list.countP (fun item => item.period != "N/A")
    let details_complete := data_list.countP (fun item => item.details != "N/A")
    let total_fields := data_list.length * 4
    let complete_fields :=
      names_complete + titles_complete + periods_complete + details_complete
    let score := round2 (((complete_fields : ℚ) / (total_fields : ℚ)) * 100)
    let qualityInsight :=
      if 80 < score then
        ["High quality data extraction - most fields were successfully parsed"]
      else if 60 < score then
        ["Moderate quality data extraction - some fields may need manual review"]
      else ["Low quality data extraction - manual review recommended"]
    let patternInsight :=
      if 1 < data_list.length then
        let titles := (data_list.map (·.title)).filter (fun t => t != "N/A")
        if !titles.isEmpty then
          let cw := find_common_words titles
          if !cw.isEmpty then
            ["Common keywords in titles: " ++ pyJoin ", " (cw.take 5)]
          else []
        else []
      else []
    let formatRec :=
      if score < 80 then
        ["Consider reviewing the MHTML file format - it may be from a different LinkedIn version"]
      else []
    let noDataRec :=
      if data_list.length = 0 then
        ["No data extracted - check if the MHTML file contains LinkedIn content"]
      else []
    .ok { total_posts := data_list.length,
          unique_names := (data_list.map (·.name)).dedup.length,
          data_quality_score := score,
          insights := qualityInsight ++ patternInsight,
          recommendations := formatRec ++ noDataRec }

/-! ## Archive reader (`extract_html_content`).  The parsed MIME message is
modeled as a tree; payload bytes are `List Nat`. -/

inductive MimeMsg where
  | part : (ctype : String) → (payload : Option (List Nat)) → MimeMsg
  | multi : (ctype : String) → (parts : List MimeMsg) → MimeMsg
deriving Repr

mutual

/-- `message.walk()`: the message itself, then its parts depth-first. -/
def walkMsg : MimeMsg → List MimeMsg
  | .part ct p => [.part ct p]
  | .multi ct ps => .multi ct ps :: walkList ps

def walkList : List MimeMsg → List MimeMsg
  | [] => []
  | m :: ms => walkMsg m ++ walkList ms

end

def MimeMsg.contentType : MimeMsg → String
  | .part ct _ => ct
  | .multi ct _ => ct

/-- `get_payload(decode=True)`: a container has no decodable payload. -/
def MimeMsg.payloadBytes : MimeMsg → Option (List Nat)
  | .part _ p => p
  | .multi _ _ => none

def MimeMsg.isMultipart : MimeMsg → Bool
  | .part _ _ => false
  | .multi _ _ => true

/-- Strict UTF-8 decoding (Python `bytes.decode('utf-8')`): rejects
continuation garbage, overlong forms, surrogates and values above
`0x10FFFF`; `none` models `UnicodeDecodeError`. -/
def utf8DecodeChars : List Nat → Option (List Char)
  | [] => some []
  | b :: rest =>
    if b < 0x80 then (utf8DecodeChars rest).map (fun cs => Char.ofNat b :: cs)
    else if b < 0xC2 then none
    else if b < 0xE0 then
      match rest with
      | b2 :: rest2 =>
        if 0x80 ≤ b2 ∧ b2 < 0xC0 then
          (utf8DecodeChars rest2).map (fun cs =>
            Char.ofNat ((b - 0xC0) * 0x40 + (b2 - 0x80)) :: cs)
        else none
      | [] => none
    else if b < 0xF0 then
      match rest with
      | b2 :: b3 :: rest3 =>
        if (if b = 0xE0 then 0xA0 ≤ b2 ∧ b2 < 0xC0
            else if b = 0xED then 0x80 ≤ b2 ∧ b2 < 0xA0
            else 0x80 ≤ b2 ∧ b2 < 0xC0) ∧ 0x80 ≤ b3 ∧ b3 < 0xC0 then
          (utf8DecodeChars rest3).map (fun cs =>
            Char.ofNat ((b - 0xE0) * 0x1000 + (b2 - 0x80) * 0x40 + (b3 - 0x80)) :: cs)
        else none
      | _ => none
    else if b < 0xF5 then
      match rest with
      | b2 :: b3 :: b4 :: rest4 =>
        if (if b = 0xF0 then 0x90 ≤ b2 ∧ b2 < 0xC0
            else if b = 0xF4 then 0x80 ≤ b2 ∧ b2 < 0x90
            else 0x80 ≤ b2 ∧ b2 < 0xC0) ∧
            0x80 ≤ b3 ∧ b3 < 0xC0 ∧ 0x80 ≤ b4 ∧ b4 < 0xC0 then
          (utf8DecodeChars rest4).map (fun cs =>
            Char.ofNat ((b - 0xF0) * 0x40000 + (b2 - 0x80) * 0x1000 +
              (b3 - 0x80) * 0x40 + (b4 - 0x80)) :: cs)
        else none
      | _ => none
    else none

/-- Latin-1 decoding never fails: each byte is its own code point. -/
def latin1DecodeChars (bytes : List Nat) : List Char := bytes.map Char.ofNat

/-- `try: payload.decode('utf-8') except UnicodeDecodeError:
payload.decode('latin-1')`. -/
def decode_payload (bytes : List Nat) : String :=
  match utf8DecodeChars bytes with
  | some cs => ⟨cs⟩
  | none => ⟨latin1DecodeChars bytes⟩

/-- The `for part in mhtml_message.walk()` loop: first `text/html` part with
a truthy decoded payload wins (the `break`); empty or absent payloads are
passed over; the decode itself is total, so the logging `except` that would
continue to the next part never fires. -/
def scan_html_parts : List MimeMsg → String
  | [] => ""
  | p :: rest =>
    if p.contentType = "text/html" then
      match p.payloadBytes with
      | some bytes =>
        if bytes.isEmpty then scan_html_parts rest else decode_payload bytes
      | none => scan_html_parts rest
    else scan_html_parts rest

/-- `LinkedInDataExtractor.extract_html_content`. -/
def extract_html_content (m : MimeMsg) : String :=
  if m.isMultipart then scan_html_parts (walkMsg m)
  else if m.contentType = "text/html" then
    match m.payloadBytes with
    | some bytes => if bytes.isEmpty then "" else decode_payload bytes
    | none => ""
  else ""

/-- C4: the Jane Doe fragment yields exactly one record, with the
"No title found" default for Title and the "N/A" sentinel elsewhere. -/
theorem extract_jane_doe_fragment :
    extract_linkedin_data janeDoeDoc =
      [{ name := "Jane Doe", title := "No title found", period := "N/A",
         details := "N/A", post_index := some 1 }] := by
  decide

/-- C10: an unknown model name skips enhancement and returns the input
list itself (not the `none` of a failed enhancement). -/
theorem enhance_unknown_model_returns_input (response : Option String)
    (data : List PostRecord) (ai_model : String)
    (h1 : ai_model ≠ "chatgpt") (h2 : ai_model ≠ "gemini") :
    enhance_data_with_ai response data ai_model = some data := by
  simp [enhance_data_with_ai, h1, h2]

/-- Witness for C10 at a concrete unknown model name. -/
theorem enhance_unknown_model_returns_input_witness :
    ("other" : String) ≠ "chatgpt" ∧ ("other" : String) ≠ "gemini" ∧
      enhance_data_with_ai none
        [{ name := "Jane", title := "T", period := "2w", details := "D" }]
        "other" =
      some [{ name := "Jane", title := "T", period := "2w", details := "D" }] :=
  ⟨by decide, by decide,
    enhance_unknown_model_returns_input none
      [{ name := "Jane", title := "T", period := "2w", details := "D" }]
      "other" (by decide) (by decide)⟩

/-! ## C7: tagging of AI-enhanced records -/

/-- Every record of `_add_metadata`'s output carries the given method tag
and confidence 0.9. -/
theorem add_metadata_fields (l : List PostRecord) (em : String)
    (r : PostRecord) (hr : r ∈ add_metadata l em) :
    r.extraction_method = some em ∧ r.confidence = some ((9 : ℚ) / 10) := by
  obtain ⟨x, -, rfl⟩ := List.mem_map.1 hr
  exact ⟨rfl, by rw [← conf09_eq]⟩

/-- A one-record input and a well-formed two-line CSV answer for the
enhancement pipeline. -/
def demo_traditional : List PostRecord :=
  [{ name := "Jane", title := "T", period := "2w", details := "D" }]

def demo_response : String := "ID,Name,Company,Location\n1,Jane,Acme,Remote"

/-- Counterexample to C7 as stated: a successful ChatGPT enhancement tags
records `traditional+ai_chatgpt`, not exactly `traditional+ai`. -/
theorem enhance_tag_is_model_specific :
    (enhance_with_chatgpt (some demo_response) demo_traditional).map
        (fun l => l.map (·.extraction_method)) =
      some [some "traditional+ai_chatgpt"] ∧
    ("traditional+ai_chatgpt" : String) ≠ "traditional+ai" := by
  constructor
  · decide
  · decide

/-- C7 (amended): every record of a successful enhancement is tagged with
`traditional+ai_` followed by the model name, and confidence 0.9. -/
theorem enhance_ai_tags_method_and_confidence
    (response : Option String) (data out : List PostRecord) :
    (enhance_data_with_ai response data "chatgpt" = some out →
      ∀ r ∈ out, r.extraction_method = some "traditional+ai_chatgpt" ∧
        r.confidence = some ((9 : ℚ) / 10)) ∧
    (enhance_data_with_ai response data "gemini" = some out →
      ∀ r ∈ out, r.extraction_method = some "traditional+ai_gemini" ∧
        r.confidence = some ((9 : ℚ) / 10)) := by
  constructor
  · intro h r hr
    rw [enhance_data_with_ai, if_pos rfl] at h
    cases response with
    | none => exact absurd h (by simp [enhance_with_chatgpt])
    | some text =>
      cases hp : parse_csv_response text with
      | none => rw [enhance_with_chatgpt, hp] at h; cases h
      | some enhanced =>
        simp only [enhance_with_chatgpt, hp] at h
        by_cases he : enhanced.isEmpty
        · rw [if_pos he] at h; cases h
        · rw [if_neg he] at h
          obtain rfl := Option.some.inj h
          exact add_metadata_fields _ _ r hr
  · intro h r hr
    rw [enhance_data_with_ai, if_neg (by decide), if_pos rfl] at h
    cases response with
    | none => exact absurd h (by simp [enhance_with_gemini])
    | some text =>
      cases hp : parse_csv_response text with
      | none => rw [enhance_with_gemini, hp] at h; cases h
      | some enhanced =>
        simp only [enhance_with_gemini, hp] at h
        by_cases he : enhanced.isEmpty
        · rw [if_pos he] at h; cases h
        · rw [if_neg he] at h
          obtain rfl := Option.some.inj h
          exact add_metadata_fields _ _ r hr

/-- The record the demo enhancement produces. -/
def demo_enhanced_record : PostRecord :=
  { name := "Jane", title := "T", period := "2w", details := "D",
    company := some "Acme", location := some "Remote",
    extraction_method := some "traditional+ai_chatgpt",
    confidence := some conf09 }

/-- Witness for the amended C7 on the demo input. -/
theorem enhance_ai_tags_method_and_confidence_witness :
    enhance_data_with_ai (some demo_response) demo_traditional "chatgpt" =
        some [demo_enhanced_record] ∧
      demo_enhanced_record ∈ [demo_enhanced_record] ∧
      (demo_enhanced_record.extraction_method = some "traditional+ai_chatgpt" ∧
        demo_enhanced_record.confidence = some ((9 : ℚ) / 10)) :=
  ⟨by decide, by decide,
    (enhance_ai_tags_method_and_confidence (some demo_response)
        demo_traditional [demo_enhanced_record]).1 (by decide)
      demo_enhanced_record (by decide)⟩

/-! ## C9: archive reader -/

/-- The per-part candidate test the reader's loop applies: a `text/html`
part with a truthy decoded payload. -/
def html_nonempty_payload (p : MimeMsg) : Option (List Nat) :=
  if p.contentType = "text/html" then
    match p.payloadBytes with
    | some bytes => if bytes.isEmpty then none else some bytes
    | none => none
  else none

/-- The payload the reader actually decodes: the first `text/html` part,
in walk order, whose payload is present and non-empty. -/
def first_html_nonempty_payload (m : MimeMsg) : Option (List Nat) :=
  ((walkMsg m).filterMap html_nonempty_payload).head?

/-- The reader loop returns the decode of the first accepted candidate. -/
theorem scan_html_parts_eq_head (ps : List MimeMsg) :
    scan_html_parts ps =
      match (ps.filterMap html_nonempty_payload).head? with
      | some bytes => decode_payload bytes
      | none => "" := by
  induction ps with
  | nil => rfl
  | cons p rest ih =>
    by_cases hct : p.contentType = "text/html"
    · cases hp : p.payloadBytes with
      | some bytes =>
        by_cases hb : bytes.isEmpty
        · simpa [scan_html_parts, html_nonempty_payload, hct, hp, hb] using ih
        · simp [scan_html_parts, html_nonempty_payload, hct, hp, hb]
      | none => simpa [scan_html_parts, html_nonempty_payload, hct, hp] using ih
    · simpa [scan_html_parts, html_nonempty_payload, hct] using ih

/-- A message whose first `text/html` part has an empty payload and whose
second carries the bytes of `"hi"`. -/
def demo_msg : MimeMsg :=
  .multi "multipart/related"
    [.part "text/html" (some []), .part "text/html" (some [104, 105])]

/-- The first `text/html` part of a message, regardless of payload. -/
def first_html_part_payload (m : MimeMsg) : Option (Option (List Nat)) :=
  ((walkMsg m).find? (fun p => p.contentType == "text/html")).map
    MimeMsg.payloadBytes

/-- Counterexample to C9 as stated: the reader skips the first `text/html`
part (empty payload, whose decode is the empty string) and returns the
decode of the second one instead. -/
theorem extract_html_skips_empty_payload :
    extract_html_content demo_msg = "hi" ∧
    first_html_part_payload demo_msg = some (some []) ∧
    decode_payload [] = "" ∧ ("hi" : String) ≠ "" := by
  refine ⟨by decide, by decide, by decide, by decide⟩

/-- C9 (amended): the reader decodes the first `text/html` part with a
non-empty payload (UTF-8 first, total Latin-1 on failure, so decoding never
raises) and returns the empty string when no such part exists — in
particular when no `text/html` part exists at all. -/
theorem extract_html_content_spec :
    (∀ m, extract_html_content m =
      match first_html_nonempty_payload m with
      | some bytes => decode_payload bytes
      | none => "") ∧
    (∀ bytes cs, utf8DecodeChars bytes = some cs →
      decode_payload bytes = ⟨cs⟩) ∧
    (∀ bytes, utf8DecodeChars bytes = none →
      decode_payload bytes = ⟨latin1DecodeChars bytes⟩) ∧
    (∀ m, (walkMsg m).all (fun p => p.contentType != "text/html") = true →
      extract_html_content m = "") := by
  have hmain : ∀ m, extract_html_content m =
      match first_html_nonempty_payload m with
      | some bytes => decode_payload bytes
      | none => "" := by
    intro m
    cases m with
    | multi ct ps =>
      rw [extract_html_content,
        if_pos (show (MimeMsg.multi ct ps).isMultipart = true from rfl)]
      exact scan_html_parts_eq_head _
    | part ct p =>
      rw [extract_html_content, if_neg (by simp [MimeMsg.isMultipart])]
      by_cases hct : ct = "text/html"
      · cases p with
        | some bytes =>
          by_cases hb : bytes.isEmpty
          · simp [first_html_nonempty_payload, walkMsg, html_nonempty_payload,
              MimeMsg.contentType, MimeMsg.payloadBytes, hct, hb]
          · simp [first_html_nonempty_payload, walkMsg, html_nonempty_payload,
              MimeMsg.contentType, MimeMsg.payloadBytes, hct, hb]
        | none =>
          simp [first_html_nonempty_payload, walkMsg, html_nonempty_payload,
            MimeMsg.contentType, MimeMsg.payloadBytes, hct]
      · simp [first_html_nonempty_payload, walkMsg, html_nonempty_payload,
          MimeMsg.contentType, MimeMsg.payloadBytes, hct]
  refine ⟨hmain, ?_, ?_, ?_⟩
  · intro bytes cs h
    rw [decode_payload, h]
  · intro bytes h
    rw [decode_payload, h]
  · intro m hall
    rw [hmain m]
    have : (walkMsg m).filterMap html_nonempty_payload = [] := by
      rw [List.filterMap_eq_nil_iff]
      intro p hp
      have := List.all_eq_true.1 hall p hp
      simp only [bne_iff_ne, ne_eq] at this
      simp [html_nonempty_payload, this]
    simp [first_html_nonempty_payload, this]

/-- Witness for the amended C9's conditional conjuncts at concrete inputs. -/
theorem extract_html_content_spec_witness :
    (utf8DecodeChars [104] = some ['h'] ∧ decode_payload [104] = ⟨['h']⟩) ∧
    (utf8DecodeChars [255] = none ∧
      decode_payload [255] = ⟨latin1DecodeChars [255]⟩) ∧
    ((walkMsg (.part "text/plain" (some [65]))).all
        (fun p => p.contentType != "text/html") = true ∧
      extract_html_content (.part "text/plain" (some [65])) = "") :=
  ⟨⟨by decide, extract_html_content_spec.2.1 [104] ['h'] (by decide)⟩,
   ⟨by decide, extract_html_content_spec.2.2.1 [255] (by decide)⟩,
   ⟨by decide, extract_html_content_spec.2.2.2 (.part "text/plain" (some [65]))
      (by decide)⟩⟩

/-! ## C3 and C5: the quality analyzer's metrics -/

/-- The claim-side per-record completeness: how many of the four core
fields differ from the sentinel. -/
def record_complete_fields (r : PostRecord) : Nat :=
  (if r.name != "N/A" then 1 else 0) + (if r.title != "N/A" then 1 else 0) +
    (if r.period != "N/A" then 1 else 0) + (if r.details != "N/A" then 1 else 0)

/-- The claim-side completeness count over a whole record list. -/
def total_complete_fields (l : List PostRecord) : Nat :=
  (l.map record_complete_fields).sum

/-- The four per-field counts of `analyze_data`'s `quality_metrics` sum to
the per-record completeness count. -/
theorem countP_core_fields (l : List PostRecord) :
    l.countP (fun item => item.name != "N/A") +
      l.countP (fun item => item.title != "N/A") +
      l.countP (fun item => item.period != "N/A") +
      l.countP (fun item => item.details != "N/A") =
    total_complete_fields l := by
  induction l with
  | nil => rfl
  | cons r t ih =>
    simp only [List.countP_cons, total_complete_fields, List.map_cons,
      List.sum_cons, record_complete_fields] at *
    omega

/-- On a nonempty list `analyze_data` reports, with the quality score equal
to the rounded completeness ratio and the distinct-name count. -/
theorem analyze_data_report (l : List PostRecord) (h : l ≠ []) :
    ∃ a, analyze_data l = .ok a ∧
      a.total_posts = l.length ∧
      a.unique_names = (l.map (·.name)).dedup.length ∧
      a.data_quality_score =
        round2 (((total_complete_fields l : ℚ) /
          ((l.length * 4 : Nat) : ℚ)) * 100) := by
  have hne : l.isEmpty = false := by
    cases l with
    | nil => exact absurd rfl h
    | cons a t => rfl
  simp only [analyze_data, hne, Bool.false_eq_true, if_false]
  refine ⟨_, rfl, rfl, rfl, ?_⟩
  rw [countP_core_fields]

/-- C3: the empty list gives the error-shaped report; for a nonempty list
the quality score is 100 × (non-sentinel core-field count) / (4 × N),
rounded to 2 decimals, and the distinct-name count is the number of
case-sensitively distinct names. -/
theorem analyze_data_empty_and_metrics :
    analyze_data [] = .err "No data to analyze" ∧
    ∀ l : List PostRecord, l ≠ [] → ∃ a, analyze_data l = .ok a ∧
      a.data_quality_score =
        round2 (100 * (total_complete_fields l : ℚ) / (4 * l.length)) ∧
      a.unique_names = (l.map (·.name)).toFinset.card := by
  constructor
  · rfl
  · intro l h
    obtain ⟨a, ha, -, hu, hs⟩ := analyze_data_report l h
    refine ⟨a, ha, ?_, ?_⟩
    · rw [hs]
      congr 1
      push_cast
      ring
    · rw [hu, List.card_toFinset]

/-- Witness for C3's nonempty branch at a concrete one-record list. -/
theorem analyze_data_empty_and_metrics_witness :
    demo_traditional ≠ [] ∧
    (∃ a, analyze_data demo_traditional = .ok a ∧
      a.data_quality_score =
        round2 (100 * (total_complete_fields demo_traditional : ℚ) /
          (4 * demo_traditional.length)) ∧
      a.unique_names = (demo_traditional.map (·.name)).toFinset.card) :=
  ⟨by decide, analyze_data_empty_and_metrics.2 demo_traditional (by decide)⟩

/-! Lemmas about round-half-even, for C5. -/

theorem rhe_ge_floor (q : ℚ) : ⌊q⌋ ≤ rhe q := by
  rw [rhe]
  split_ifs <;> omega

theorem rhe_le_floor_succ (q : ℚ) : rhe q ≤ ⌊q⌋ + 1 := by
  rw [rhe]
  split_ifs <;> omega

theorem rhe_le_of_le (q : ℚ) (n : ℤ) (h : q ≤ n) : rhe q ≤ n := by
  rcases lt_or_eq_of_le (Int.floor_le_floor h) with hf | hf
  · rw [Int.floor_intCast] at hf
    have := rhe_le_floor_succ q
    omega
  · rw [Int.floor_intCast] at hf
    have h1 : q - (⌊q⌋ : ℚ) < 1 / 2 := by
      rw [hf]
      have h2 : q - (n : ℚ) ≤ 0 := by linarith
      linarith
    rw [rhe, if_pos h1, hf]

theorem rhe_mono {a b : ℚ} (h : a ≤ b) : rhe a ≤ rhe b := by
  rcases lt_or_eq_of_le (Int.floor_le_floor h) with hf | hf
  · calc rhe a ≤ ⌊a⌋ + 1 := rhe_le_floor_succ a
      _ ≤ ⌊b⌋ := by omega
      _ ≤ rhe b := rhe_ge_floor b
  · rw [rhe, rhe, ← hf]
    split_ifs <;> first | omega | linarith

theorem round2_mono {a b : ℚ} (h : a ≤ b) : round2 a ≤ round2 b := by
  rw [round2, round2]
  have h1 : rhe (a * 100) ≤ rhe (b * 100) := rhe_mono (by linarith)
  have h2 : ((rhe (a * 100) : ℤ) : ℚ) ≤ ((rhe (b * 100) : ℤ) : ℚ) :=
    Int.cast_le.2 h1
  exact div_le_div_of_nonneg_right h2 (by norm_num) |>.trans_eq rfl

theorem round2_nonneg {q : ℚ} (h : 0 ≤ q) : 0 ≤ round2 q := by
  rw [round2]
  have h2 : (0 : ℤ) ≤ ⌊q * 100⌋ := Int.floor_nonneg.2 (by linarith)
  have h1 : (0 : ℤ) ≤ rhe (q * 100) := le_trans h2 (rhe_ge_floor _)
  exact div_nonneg (by exact_mod_cast h1) (by norm_num)

theorem round2_le_100 {q : ℚ} (h : q ≤ 100) : round2 q ≤ 100 := by
  rw [round2]
  have h1 : rhe (q * 100) ≤ (10000 : ℤ) :=
    rhe_le_of_le _ _ (by push_cast; linarith)
  rw [div_le_iff₀ (by norm_num : (0 : ℚ) < 100)]
  calc ((rhe (q * 100) : ℤ) : ℚ) ≤ (10000 : ℚ) := by exact_mod_cast h1
    _ = 100 * 100 := by norm_num

theorem record_complete_fields_le (r : PostRecord) :
    record_complete_fields r ≤ 4 := by
  rw [record_complete_fields]
  split_ifs <;> omega

theorem total_complete_fields_le (l : List PostRecord) :
    total_complete_fields l ≤ 4 * l.length := by
  induction l with
  | nil => exact Nat.le_refl 0
  | cons r t ih =>
    have := record_complete_fields_le r
    simp only [total_complete_fields, List.map_cons, List.sum_cons,
      List.length_cons] at *
    omega

/-! The core fields as selectors, for C5's field-replacement statement. -/

inductive CoreField where
  | nameF | titleF | periodF | detailsF
deriving Repr, DecidableEq

def get_core_field (r : PostRecord) : CoreField → String
  | .nameF => r.name
  | .titleF => r.title
  | .periodF => r.period
  | .detailsF => r.details

def set_core_field (r : PostRecord) : CoreField → String → PostRecord
  | .nameF, v => { r with name := v }
  | .titleF, v => { r with title := v }
  | .periodF, v => { r with period := v }
  | .detailsF, v => { r with details := v }

theorem record_complete_fields_set (r : PostRecord) (f : CoreField)
    (v : String) (hna : get_core_field r f = "N/A") (hv : v ≠ "N/A") :
    record_complete_fields (set_core_field r f v) =
      record_complete_fields r + 1 := by
  cases f <;>
    · rw [get_core_field] at hna
      simp only [record_complete_fields, set_core_field, hna, bne_self_eq_false,
        Bool.false_eq_true, bne_iff_ne, ne_eq, hv, not_false_eq_true, if_true,
        if_false]
      try omega

theorem total_complete_fields_set (l : List PostRecord) (i : Nat)
    (x : PostRecord) (h : i < l.length) :
    total_complete_fields (l.set i x) + record_complete_fields (l.get ⟨i, h⟩) =
      total_complete_fields l + record_complete_fields x := by
  induction l generalizing i with
  | nil => exact absurd h (by simp)
  | cons a t ih =>
    cases i with
    | zero =>
      simp only [List.set, total_complete_fields, List.map_cons,
        List.sum_cons, List.get]
      omega
    | succ n =>
      have hn : n < t.length := by simpa using h
      have := ih n hn
      simp only [List.set, total_complete_fields, List.map_cons,
        List.sum_cons, List.get] at this ⊢
      omega

/-- C5: the quality score of `analyze_data` lies in [0, 100]; replacing a
sentinel core-field value of any record with a non-sentinel value (list
size fixed) never decreases it. -/
theorem quality_score_bounds_and_monotone :
    (∀ l : List PostRecord, l ≠ [] → ∃ a, analyze_data l = .ok a ∧
      0 ≤ a.data_quality_score ∧ a.data_quality_score ≤ 100) ∧
    (∀ (l : List PostRecord) (i : Nat) (h : i < l.length) (f : CoreField)
      (v : String), get_core_field (l.get ⟨i, h⟩) f = "N/A" → v ≠ "N/A" →
      ∃ a a', analyze_data l = .ok a ∧
        analyze_data (l.set i (set_core_field (l.get ⟨i, h⟩) f v)) = .ok a' ∧
        a.data_quality_score ≤ a'.data_quality_score) := by
  have hq : ∀ l : List PostRecord, l ≠ [] →
      (0 : ℚ) ≤ ((total_complete_fields l : ℚ) /
        ((l.length * 4 : Nat) : ℚ)) * 100 ∧
      ((total_complete_fields l : ℚ) /
        ((l.length * 4 : Nat) : ℚ)) * 100 ≤ 100 := by
    intro l hl
    have hlen : 0 < l.length := List.length_pos.2 hl
    have hden : (0 : ℚ) < ((l.length * 4 : Nat) : ℚ) := by
      push_cast
      positivity
    have hc : (total_complete_fields l : ℚ) ≤ ((l.length * 4 : Nat) : ℚ) := by
      have h0 := total_complete_fields_le l
      have h4 : total_complete_fields l ≤ l.length * 4 := by omega
      exact_mod_cast h4
    constructor
    · positivity
    · have hr : (total_complete_fields l : ℚ) /
          ((l.length * 4 : Nat) : ℚ) ≤ 1 := by
        rw [div_le_one hden]
        exact hc
      linarith
  constructor
  · intro l hl
    obtain ⟨a, ha, -, -, hs⟩ := analyze_data_report l hl
    refine ⟨a, ha, ?_, ?_⟩
    · rw [hs]
      exact round2_nonneg (hq l hl).1
    · rw [hs]
      exact round2_le_100 (hq l hl).2
  · intro l i h f v hna hv
    have hl : l ≠ [] := by
      intro he
      rw [he] at h
      exact absurd h (by simp)
    have hl' : l.set i (set_core_field (l.get ⟨i, h⟩) f v) ≠ [] := by
      intro he
      have := congrArg List.length he
      rw [List.length_set] at this
      rw [List.length_eq_zero.1 this] at h
      exact absurd h (by simp)
    obtain ⟨a, ha, -, -, hs⟩ := analyze_data_report l hl
    obtain ⟨a', ha', -, -, hs'⟩ := analyze_data_report _ hl'
    refine ⟨a, a', ha, ha', ?_⟩
    rw [hs, hs']
    apply round2_mono
    have hset := total_complete_fields_set l i (set_core_field (l.get ⟨i, h⟩) f v) h
    rw [record_complete_fields_set _ _ _ hna hv] at hset
    have hcount : total_complete_fields
        (l.set i (set_core_field (l.get ⟨i, h⟩) f v)) =
        total_complete_fields l + 1 := by omega
    rw [List.length_set, hcount]
    have hlen : 0 < l.length := List.length_pos.2 hl
    have hdenpos : (0 : ℚ) < ((l.length * 4 : Nat) : ℚ) := by
      push_cast
      positivity
    have hle : (total_complete_fields l : ℚ) ≤
        ((total_complete_fields l + 1 : Nat) : ℚ) := by
      push_cast
      linarith
    have hdiv : (total_complete_fields l : ℚ) / ((l.length * 4 : Nat) : ℚ) ≤
        ((total_complete_fields l + 1 : Nat) : ℚ) /
          ((l.length * 4 : Nat) : ℚ) :=
      div_le_div_of_nonneg_right hle hdenpos.le
    exact mul_le_mul_of_nonneg_right hdiv (by norm_num)

/-- A one-record list whose Title is the sentinel. -/
def demo_with_sentinel : List PostRecord :=
  [{ name := "Jane", title := "N/A", period := "2w", details := "D" }]

/-- Witness for C5 at a concrete list: one record whose Title is the
sentinel, replaced by a non-sentinel value. -/
theorem quality_score_bounds_and_monotone_witness :
    (demo_with_sentinel ≠ [] ∧
      (∃ a, analyze_data demo_with_sentinel = .ok a ∧
        0 ≤ a.data_quality_score ∧ a.data_quality_score ≤ 100)) ∧
    ((0 : Nat) < demo_with_sentinel.length ∧
      get_core_field (demo_with_sentinel.get ⟨0, by decide⟩) .titleF = "N/A" ∧
      ("Engineer" : String) ≠ "N/A" ∧
      (∃ a a', analyze_data demo_with_sentinel = .ok a ∧
        analyze_data (demo_with_sentinel.set 0
          (set_core_field (demo_with_sentinel.get ⟨0, by decide⟩) .titleF
            "Engineer")) = .ok a' ∧
        a.data_quality_score ≤ a'.data_quality_score)) :=
  ⟨⟨by decide, quality_score_bounds_and_monotone.1 demo_with_sentinel (by decide)⟩,
   ⟨by decide, by decide, by decide,
    quality_score_bounds_and_monotone.2 demo_with_sentinel 0 (by decide) .titleF
      "Engineer" (by decide) (by decide)⟩⟩

/-! ## C2: the enhancement merge -/

/-- The claim-side lookup result: the last AI row whose stripped name
equals `key` (the dict keeps the last insertion for a repeated key). -/
def last_name_match (rows : List CsvRow) (key : String) : Option CsvRow :=
  (rows.filter (fun r => pyStrip r.name == key)).getLast?

theorem getLast?_cons_of_ne_nil {α : Type} (a : α) (l : List α) (h : l ≠ []) :
    (a :: l).getLast? = l.getLast? := by
  cases l with
  | nil => exact absurd rfl h
  | cons b t => exact List.getLast?_cons_cons

theorem getLast?_cons_ne_none {α : Type} (a : α) (l : List α) :
    (a :: l).getLast? ≠ none := by
  induction l generalizing a with
  | nil => simp
  | cons b t ih =>
    rw [List.getLast?_cons_cons]
    exact ih b

/-- The `ai_lookup` fold, related to the last matching row, for any
accumulator and any non-empty key. -/
theorem ai_lookup_go (rows : List CsvRow) (m : String → Option CsvRow)
    (key : String) (hkey : key ≠ "") :
    (rows.foldl
      (fun m r =>
        let n := pyStrip r.name
        if n ≠ "" then (fun k => if k = n then some r else m k) else m) m) key =
    match last_name_match rows key with
    | some r => some r
    | none => m key := by
  induction rows generalizing m with
  | nil => rfl
  | cons r rest ih =>
    rw [List.foldl_cons, ih]
    by_cases hp : pyStrip r.name = key
    · have hn : pyStrip r.name ≠ "" := by rw [hp]; exact hkey
      have hfilter : (r :: rest).filter (fun x => pyStrip x.name == key) =
          r :: rest.filter (fun x => pyStrip x.name == key) := by
        rw [List.filter_cons, if_pos (by simp [hp])]
      cases hlast : last_name_match rest key with
      | some r' =>
        have hne : rest.filter (fun x => pyStrip x.name == key) ≠ [] := by
          intro hnil
          rw [last_name_match, hnil] at hlast
          cases hlast
        have hcons : last_name_match (r :: rest) key =
            last_name_match rest key := by
          simp only [last_name_match, hfilter]
          exact getLast?_cons_of_ne_nil _ _ hne
        simp only [hcons, hlast]
      | none =>
        have hnil : rest.filter (fun x => pyStrip x.name == key) = [] := by
          cases hh : rest.filter (fun x => pyStrip x.name == key) with
          | nil => rfl
          | cons y ys =>
            rw [last_name_match, hh] at hlast
            exact absurd hlast (getLast?_cons_ne_none y ys)
        have hcons : last_name_match (r :: rest) key = some r := by
          simp only [last_name_match, hfilter, hnil]
          rfl
        simp only [hcons, hlast]
        simp [hp, hkey]
    · have hfilter : (r :: rest).filter (fun x => pyStrip x.name == key) =
          rest.filter (fun x => pyStrip x.name == key) := by
        rw [List.filter_cons, if_neg (by simp [hp])]
      have hcons : last_name_match (r :: rest) key =
          last_name_match rest key := by
        simp only [last_name_match, hfilter]
      rw [hcons]
      cases hl2 : last_name_match rest key with
      | some r' => simp only [hl2]
      | none =>
        simp only [hl2]
        by_cases hn : pyStrip r.name ≠ ""
        · rw [if_pos hn]
          show (if key = pyStrip r.name then some r else m key) = m key
          rw [if_neg (fun h => hp h.symm)]
        · rw [if_neg hn]

/-- The lookup dict agrees with the last matching row for non-empty keys. -/
theorem ai_lookup_map_eq (rows : List CsvRow) (key : String) (hkey : key ≠ "") :
    ai_lookup_map rows key = last_name_match rows key := by
  rw [ai_lookup_map, ai_lookup_go rows _ key hkey]
  cases last_name_match rows key <;> rfl

/-- An empty stripped name is never a key of the lookup dict. -/
theorem ai_lookup_map_empty (rows : List CsvRow) :
    ai_lookup_map rows "" = none := by
  rw [ai_lookup_map]
  have hgen : ∀ (rs : List CsvRow) (m : String → Option CsvRow), m "" = none →
      (rs.foldl
        (fun m r =>
          let n := pyStrip r.name
          if n ≠ "" then (fun k => if k = n then some r else m k) else m) m) "" =
        none := by
    intro rs
    induction rs with
    | nil => exact fun m hm => hm
    | cons r rest ih =>
      intro m hm
      rw [List.foldl_cons]
      apply ih
      by_cases hn : pyStrip r.name ≠ ""
      · rw [if_pos hn]
        show (if "" = pyStrip r.name then some r else m "") = none
        rw [if_neg (fun h => hn h.symm), hm]
      · rw [if_neg hn]
        exact hm
  exact hgen rows _ rfl

theorem merge_one_retains {lookup : String → Option CsvRow}
    {item : PostRecord} :
    (merge_one lookup item).name = item.name ∧
    (merge_one lookup item).title = item.title ∧
    (merge_one lookup item).period = item.period ∧
    (merge_one lookup item).details = item.details := by
  rw [merge_one]
  cases lookup (pyStrip item.name) <;> exact ⟨rfl, rfl, rfl, rfl⟩

/-- C2 (amended): the merge returns one record per original record, in
order; each output retains the original Name/Title/Period/Details; a record
whose trimmed Name is non-empty and matches some parsed row (the last such
row, as the lookup dict keeps the last insertion) gains that row's
Company/Location; any other record gains the sentinel for both. -/
theorem merge_preserves_order_count_and_fields
    (original : List PostRecord) (ai : List CsvRow) :
    (merge_ai_enhancement_with_original original ai).length = original.length ∧
    ∀ (k : Nat) (item : PostRecord), original[k]? = some item →
      ∃ out, (merge_ai_enhancement_with_original original ai)[k]? = some out ∧
        out.name = item.name ∧ out.title = item.title ∧
        out.period = item.period ∧ out.details = item.details ∧
        (match last_name_match ai (pyStrip item.name) with
         | some row =>
           if pyStrip item.name ≠ "" then
             out.company = some row.company ∧ out.location = some row.location
           else out.company = some "N/A" ∧ out.location = some "N/A"
         | none => out.company = some "N/A" ∧ out.location = some "N/A") := by
  by_cases hai : ai.isEmpty
  · have hnil : ai = [] := List.isEmpty_iff.1 hai
    rw [merge_ai_enhancement_with_original, if_pos hai]
    refine ⟨List.length_map _ _, ?_⟩
    intro k item hk
    refine ⟨default_enhanced item, ?_, rfl, rfl, rfl, rfl, ?_⟩
    · rw [List.getElem?_map, hk, Option.map_some']
    · rw [hnil]
      exact ⟨rfl, rfl⟩
  · rw [merge_ai_enhancement_with_original, if_neg hai]
    refine ⟨List.length_map _ _, ?_⟩
    intro k item hk
    refine ⟨merge_one (ai_lookup_map ai) item, ?_, merge_one_retains.1,
      merge_one_retains.2.1, merge_one_retains.2.2.1,
      merge_one_retains.2.2.2, ?_⟩
    · rw [List.getElem?_map, hk, Option.map_some']
    · by_cases hname : pyStrip item.name = ""
      · have hlk : ai_lookup_map ai (pyStrip item.name) = none := by
          rw [hname]
          exact ai_lookup_map_empty ai
        have hout : merge_one (ai_lookup_map ai) item =
            default_enhanced item := by
          rw [merge_one, hlk]
        cases hl : last_name_match ai (pyStrip item.name) with
        | some row => simp [hout, default_enhanced, hname]
        | none => simp [hout, default_enhanced]
      · have hlk : ai_lookup_map ai (pyStrip item.name) =
            last_name_match ai (pyStrip item.name) :=
          ai_lookup_map_eq ai _ hname
        cases hl : last_name_match ai (pyStrip item.name) with
        | some row =>
          have hout : merge_one (ai_lookup_map ai) item =
              { name := item.name, title := item.title, period := item.period,
                details := item.details, company := some row.company,
                location := some row.location } := by
            rw [merge_one, hlk, hl]
          simp [hout, hname]
        | none =>
          have hout : merge_one (ai_lookup_map ai) item =
              default_enhanced item := by
            rw [merge_one, hlk, hl]
          simp [hout, default_enhanced]

/-- One original record with an empty Name and one parsed row whose Name is
also empty. -/
def empty_name_rec : PostRecord :=
  { name := "", title := "T", period := "P", details := "D" }

def empty_name_row : CsvRow :=
  { id := "1", name := "", company := "Acme", location := "Remote" }

/-- Counterexample to C2 as stated: a parsed row whose trimmed Name equals
the original record's trimmed Name exists (both empty), yet the merge
assigns the sentinel, not that row's Company/Location. -/
theorem merge_ignores_empty_name_match :
    pyStrip empty_name_row.name = pyStrip empty_name_rec.name ∧
    (merge_ai_enhancement_with_original [empty_name_rec]
        [empty_name_row]).map (·.company) = [some "N/A"] ∧
    (some "N/A" : Option String) ≠ some "Acme" := by
  exact ⟨by decide, by decide, by decide⟩

/-- The record and AI row of the demo enhancement, named. -/
def demo_jane : PostRecord :=
  { name := "Jane", title := "T", period := "2w", details := "D" }

def demo_row : CsvRow :=
  { id := "1", name := "Jane", company := "Acme", location := "Remote" }

/-- Witness for the amended C2 at a concrete matching pair. -/
theorem merge_preserves_order_count_and_fields_witness :
    demo_traditional[0]? = some demo_jane ∧
    (∃ out, (merge_ai_enhancement_with_original demo_traditional
        [demo_row])[0]? = some out ∧
      out.name = demo_jane.name ∧ out.title = demo_jane.title ∧
      out.period = demo_jane.period ∧ out.details = demo_jane.details ∧
      (match last_name_match [demo_row] (pyStrip demo_jane.name) with
       | some row =>
         if pyStrip demo_jane.name ≠ "" then
           out.company = some row.company ∧ out.location = some row.location
         else out.company = some "N/A" ∧ out.location = some "N/A"
       | none => out.company = some "N/A" ∧ out.location = some "N/A")) :=
  ⟨by decide,
    (merge_preserves_order_count_and_fields demo_traditional [demo_row]).2 0
      demo_jane (by decide)⟩

/-! ## C6: the CSV response parser's give-up condition -/

theorem splitCharList_ne_nil (c : Char) (l : List Char) :
    splitCharList c l ≠ [] := by
  cases l with
  | nil => simp [splitCharList]
  | cons ch rest =>
    rw [splitCharList]
    cases h : splitCharList c rest with
    | nil => simp
    | cons grp gs =>
      by_cases hc : ch = c
      · simp [hc]
      · simp [hc]

/-- The claim-side valid lines: stripped lines that are not fence markers
and have at least 4 comma-separated fields. -/
def claim_valid_lines (text : String) : List String :=
  ((response_lines text).map pyStrip).filter
    (fun l => !pyStartsWith l "```" && decide (4 ≤ (pySplit ',' l).length))

/-- The collapsed error path is real: a stray carriage return inside an
unquoted field leaves two lines with ≥ 4 comma-separated fields, yet the
reader ends the record at the `'\r'`, raises on the next character, and the
parser returns `None` through its catch-all `except`. -/
theorem parse_none_on_stray_carriage_return :
    (claim_valid_lines "a,b,c,d\rx\ne,f,g,h").length = 2 ∧
    parse_csv_response "a,b,c,d\rx\ne,f,g,h" = none := by
  exact ⟨by decide, by decide⟩

/-- The lines of a text, splitting at every newline (Python
`text.split('\n')` semantics). -/
def linesOf (s : String) : List String :=
  (splitCharList '\n' s.data).map (fun l => ⟨l⟩)

theorem data_append (a b : String) : (a ++ b).data = a.data ++ b.data := rfl

theorem splitCharList_of_not_mem {c : Char} {l : List Char} (h : c ∉ l) :
    splitCharList c l = [l] := by
  induction l with
  | nil => rfl
  | cons ch rest ih =>
    have hch : ch ≠ c := fun he => h (he ▸ List.mem_cons_self ch rest)
    have hrest : c ∉ rest := fun hm => h (List.mem_cons_of_mem ch hm)
    rw [splitCharList, ih hrest]
    simp [hch]

theorem splitCharList_append {c : Char} {a : List Char} (b : List Char)
    (h : c ∉ a) : splitCharList c (a ++ c :: b) = a :: splitCharList c b := by
  induction a with
  | nil =>
    rw [List.nil_append, splitCharList]
    cases hb : splitCharList c b with
    | nil => exact absurd hb (splitCharList_ne_nil c b)
    | cons grp gs => simp
  | cons x a' ih =>
    have hx : x ≠ c := fun he => h (he ▸ List.mem_cons_self x a')
    have ha' : c ∉ a' := fun hm => h (List.mem_cons_of_mem x hm)
    rw [List.cons_append, splitCharList, ih ha']
    simp [hx]

/-- Joining newline-free parts with a newline splits back into the parts. -/
theorem linesOf_joinNL (parts : List String) (hne : parts ≠ [])
    (hnl : ∀ p ∈ parts, '\n' ∉ p.data) :
    linesOf (pyJoin "\n" parts) = parts := by
  induction parts with
  | nil => exact absurd rfl hne
  | cons s rest ih =>
    cases rest with
    | nil =>
      have hs : '\n' ∉ s.data := hnl s (List.mem_cons_self s [])
      rw [pyJoin, linesOf, splitCharList_of_not_mem hs]
      rfl
    | cons r rest' =>
      have hs : '\n' ∉ s.data := hnl s (List.mem_cons_self _ _)
      have hrest : ∀ p ∈ r :: rest', '\n' ∉ p.data :=
        fun p hp => hnl p (List.mem_cons_of_mem s hp)
      have hdata : (s ++ "\n" ++ pyJoin "\n" (r :: rest')).data =
          s.data ++ '\n' :: (pyJoin "\n" (r :: rest')).data := by
        rw [data_append, data_append, List.append_assoc]
        rfl
      show linesOf (s ++ "\n" ++ pyJoin "\n" (r :: rest')) = _
      rw [linesOf, hdata, splitCharList_append _ hs]
      rw [List.map_cons]
      have : (splitCharList '\n' (pyJoin "\n" (r :: rest')).data).map
          (fun l => (⟨l⟩ : String)) = r :: rest' := ih (by simp) hrest
      rw [this]

theorem no_nl_padTo {s : String} (w : Nat) (h : '\n' ∉ s.data) :
    '\n' ∉ (padTo s w).data := by
  rw [padTo, data_append]
  intro hm
  rcases List.mem_append.1 hm with hm | hm
  · exact h hm
  · have := List.eq_of_mem_replicate hm
    cases this

theorem no_nl_slice {s : String} (n : Nat) (h : '\n' ∉ s.data) :
    '\n' ∉ (pySlice s n).data :=
  fun hm => h (List.take_subset n s.data hm)

theorem no_nl_join {sep : String} (hsep : '\n' ∉ sep.data) :
    ∀ parts : List String, (∀ p ∈ parts, '\n' ∉ p.data) →
      '\n' ∉ (pyJoin sep parts).data := by
  intro parts
  induction parts with
  | nil =>
    intro _ hm
    cases hm
  | cons s rest ih =>
    intro hp
    cases rest with
    | nil => exact hp s (List.mem_cons_self _ _)
    | cons r rest' =>
      have hs : '\n' ∉ s.data := hp s (List.mem_cons_self _ _)
      have hrest := ih (fun p hm => hp p (List.mem_cons_of_mem s hm))
      show '\n' ∉ (s ++ sep ++ pyJoin sep (r :: rest')).data
      rw [data_append, data_append]
      intro hm
      rcases List.mem_append.1 hm with hm | hm
      · rcases List.mem_append.1 hm with hm | hm
        · exact hs hm
        · exact hsep hm
      · exact hrest hm

theorem fmt_columns_no_nl : ∀ col ∈ fmt_columns, '\n' ∉ col.data := by
  decide

theorem no_nl_header (data : List PostRecord) :
    '\n' ∉ (header_line data).data := by
  rw [header_line]
  refine no_nl_join (by decide) _ ?_
  intro p hp
  obtain ⟨col, hcol, rfl⟩ := List.mem_map.1 hp
  exact no_nl_padTo _ (fmt_columns_no_nl col hcol)

theorem no_nl_separator (data : List PostRecord) :
    '\n' ∉ (separator_line data).data := by
  rw [separator_line]
  intro hm
  have := List.eq_of_mem_replicate hm
  cases this

theorem no_nl_row (data : List PostRecord) (entry : PostRecord)
    (hval : ∀ col ∈ fmt_columns, '\n' ∉ (record_get entry col).data) :
    '\n' ∉ (row_line data entry).data := by
  rw [row_line]
  refine no_nl_join (by decide) _ ?_
  intro p hp
  obtain ⟨col, hcol, rfl⟩ := List.mem_map.1 hp
  exact no_nl_padTo _ (no_nl_slice _ (hval col hcol))

/-- C8 (amended): the empty list yields the literal string; each column
width is the minimum of the per-column cap and the longest observed value
plus 2; and on a nonempty list whose displayed values contain no newline
character, the output is exactly header, dash rule, and one line per record
— 2 + N lines.  (A value with an embedded newline survives truncation and
breaks the line count, hence the newline-freedom hypothesis.) -/
theorem get_formatted_output_spec :
    get_formatted_output [] = "No data to display" ∧
    (∀ (data : List PostRecord) (col : String),
      col_width data col = min (col_cap col) (max_col_len data col + 2)) ∧
    (∀ data : List PostRecord, data ≠ [] →
      (∀ r ∈ data, ∀ col ∈ fmt_columns, '\n' ∉ (record_get r col).data) →
      linesOf (get_formatted_output data) =
        header_line data :: separator_line data ::
          data.map (row_line data) ∧
      (linesOf (get_formatted_output data)).length = 2 + data.length) := by
  refine ⟨rfl, ?_, ?_⟩
  · intro data col
    rw [col_width, Nat.min_comm]
  · intro data hne hval
    have hempty : data.isEmpty = false := by
      cases data with
      | nil => exact absurd rfl hne
      | cons a t => rfl
    have hout : get_formatted_output data = pyJoin "\n"
        (header_line data :: separator_line data ::
          data.map (row_line data)) := by
      rw [get_formatted_output, hempty]
      rfl
    have hlines : linesOf (get_formatted_output data) =
        header_line data :: separator_line data ::
          data.map (row_line data) := by
      rw [hout]
      refine linesOf_joinNL _ (by simp) ?_
      intro p hp
      rcases List.mem_cons.1 hp with rfl | hp
      · exact no_nl_header data
      rcases List.mem_cons.1 hp with rfl | hp
      · exact no_nl_separator data
      obtain ⟨r, hr, rfl⟩ := List.mem_map.1 hp
      exact no_nl_row data r (fun col hcol => hval r hr col hcol)
    refine ⟨hlines, ?_⟩
    rw [hlines]
    simp [List.length_map]
    omega

/-- A record whose Name embeds a newline. -/
def newline_record : PostRecord :=
  { name := "A\nB", title := "T", period := "P", details := "D" }

/-- Counterexample to C8 as stated: with an embedded newline in a value the
output of a one-record list does not have 2 + 1 lines (the newline survives
truncation and adds a line). -/
theorem formatted_output_newline_breaks_count :
    (linesOf (get_formatted_output [newline_record])).length ≠ 2 + 1 := by
  decide

/-- Witness for the amended C8 on a concrete one-record list. -/
theorem get_formatted_output_spec_witness :
    demo_traditional ≠ [] ∧
    (∀ r ∈ demo_traditional, ∀ col ∈ fmt_columns,
      '\n' ∉ (record_get r col).data) ∧
    (linesOf (get_formatted_output demo_traditional) =
        header_line demo_traditional :: separator_line demo_traditional ::
          demo_traditional.map (row_line demo_traditional) ∧
      (linesOf (get_formatted_output demo_traditional)).length =
        2 + demo_traditional.length) :=
  ⟨by decide, by decide,
    get_formatted_output_spec.2.2 demo_traditional (by decide) (by decide)⟩

/-! ## C1: the post enumerator's name guarantee and index assignment -/

theorem head?_dropWhile_not (p : Char → Bool) (l : List Char) :
    ∀ c, (l.dropWhile p).head? = some c → p c = false := by
  induction l with
  | nil =>
    intro c hc
    cases hc
  | cons a t ih =>
    intro c hc
    by_cases ha : p a
    · rw [List.dropWhile_cons_of_pos ha] at hc
      exact ih c hc
    · rw [List.dropWhile_cons_of_neg ha, List.head?_cons] at hc
      obtain rfl := Option.some.inj hc
      exact Bool.eq_false_iff.2 ha

theorem getLast?_dropWhile_of_ne_nil (p : Char → Bool) (l : List Char)
    (h : l.dropWhile p ≠ []) : (l.dropWhile p).getLast? = l.getLast? := by
  induction l with
  | nil => exact absurd rfl h
  | cons a t ih =>
    by_cases ha : p a
    · rw [List.dropWhile_cons_of_pos ha] at h ⊢
      have ht : t ≠ [] := by
        intro he
        rw [he] at h
        exact h rfl
      rw [ih h, getLast?_cons_of_ne_nil a t ht]
    · rw [List.dropWhile_cons_of_neg ha]

theorem stripChars_head (l : List Char) :
    ∀ c, (stripChars l).head? = some c → c.isWhitespace = false := by
  intro c hc
  rw [stripChars, List.head?_reverse] at hc
  have hne : (l.dropWhile Char.isWhitespace).reverse.dropWhile
      Char.isWhitespace ≠ [] := by
    intro he
    rw [he] at hc
    cases hc
  rw [getLast?_dropWhile_of_ne_nil _ _ hne, List.getLast?_reverse] at hc
  exact head?_dropWhile_not _ _ c hc

theorem stripChars_last (l : List Char) :
    ∀ c, (stripChars l).getLast? = some c → c.isWhitespace = false := by
  intro c hc
  rw [stripChars, List.getLast?_reverse] at hc
  exact head?_dropWhile_not _ _ c hc

theorem stripChars_eq_self (l : List Char)
    (h1 : ∀ c, l.head? = some c → c.isWhitespace = false)
    (h2 : ∀ c, l.getLast? = some c → c.isWhitespace = false) :
    stripChars l = l := by
  have step1 : l.dropWhile Char.isWhitespace = l := by
    cases l with
    | nil => rfl
    | cons a t =>
      have := h1 a rfl
      rw [List.dropWhile_cons_of_neg (by simp [this])]
  rw [stripChars, step1]
  have step2 : l.reverse.dropWhile Char.isWhitespace = l.reverse := by
    cases hl : l.reverse with
    | nil => rfl
    | cons a t =>
      have ha : l.getLast? = some a := by
        rw [← List.head?_reverse, hl, List.head?_cons]
      have := h2 a ha
      rw [List.dropWhile_cons_of_neg (by simp [this])]
  rw [step2, List.reverse_reverse]

theorem stripChars_idem (l : List Char) :
    stripChars (stripChars l) = stripChars l :=
  stripChars_eq_self _ (stripChars_head l) (stripChars_last l)

theorem pyStrip_idem (s : String) : pyStrip (pyStrip s) = pyStrip s :=
  congrArg (fun l => (⟨l⟩ : String)) (stripChars_idem s.data)

theorem pyStrip_data (s : String) (h : pyStrip s = s) :
    stripChars s.data = s.data :=
  congrArg String.data h

theorem ne_empty_iff_data (s : String) : s ≠ "" ↔ s.data ≠ [] := by
  constructor
  · intro h hd
    apply h
    cases s with
    | mk d =>
      simp only at hd
      rw [hd]
  · intro h he
    rw [he] at h
    exact h rfl

theorem head?_append_left {α : Type} (l l' : List α) (h : l ≠ []) :
    (l ++ l').head? = l.head? := by
  cases l with
  | nil => exact absurd rfl h
  | cons a t => rfl

theorem getLast?_append_right {α : Type} (l l' : List α) (h : l' ≠ []) :
    (l ++ l').getLast? = l'.getLast? := by
  induction l with
  | nil => rfl
  | cons a t ih =>
    have ht : t ++ l' ≠ [] := by
      intro he
      exact h (List.append_eq_nil.1 he).2
    rw [List.cons_append, getLast?_cons_of_ne_nil _ _ ht, ih]

/-- A join of two or more parts, or of one non-empty part, is non-empty. -/
theorem pyJoin_space_ne_nil (r : String) (rest : List String) (hr : r ≠ "") :
    (pyJoin " " (r :: rest)).data ≠ [] := by
  cases rest with
  | nil => exact (ne_empty_iff_data r).1 hr
  | cons q t =>
    show (r ++ " " ++ pyJoin " " (q :: t)).data ≠ []
    rw [data_append, data_append]
    intro he
    have := (List.append_eq_nil.1 (List.append_eq_nil.1 he).1).2
    cases this

/-- A space-join of stripped non-empty parts is itself stripped. -/
theorem pyJoin_space_trimmed (parts : List String)
    (hp : ∀ p ∈ parts, pyStrip p = p ∧ p ≠ "") :
    pyStrip (pyJoin " " parts) = pyJoin " " parts := by
  induction parts with
  | nil => rfl
  | cons s rest ih =>
    cases rest with
    | nil => exact (hp s (List.mem_cons_self _ _)).1
    | cons r rest' =>
      have hs := hp s (List.mem_cons_self _ _)
      have hrest : ∀ p ∈ r :: rest', pyStrip p = p ∧ p ≠ "" :=
        fun p hm => hp p (List.mem_cons_of_mem s hm)
      have hJ := ih hrest
      have hr := hrest r (List.mem_cons_self _ _)
      have hJne : (pyJoin " " (r :: rest')).data ≠ [] :=
        pyJoin_space_ne_nil r rest' hr.2
      have hdata : (s ++ " " ++ pyJoin " " (r :: rest')).data =
          s.data ++ ' ' :: (pyJoin " " (r :: rest')).data := by
        rw [data_append, data_append, List.append_assoc]
        rfl
      show pyStrip (s ++ " " ++ pyJoin " " (r :: rest')) = _
      rw [pyStrip, hdata]
      have hself : stripChars
          (s.data ++ ' ' :: (pyJoin " " (r :: rest')).data) =
          s.data ++ ' ' :: (pyJoin " " (r :: rest')).data := by
        apply stripChars_eq_self
        · intro c hc
          rw [head?_append_left _ _ ((ne_empty_iff_data s).1 hs.2)] at hc
          rw [← pyStrip_data s hs.1] at hc
          exact stripChars_head _ c hc
        · intro c hc
          rw [getLast?_append_right _ _ (by simp)] at hc
          rw [getLast?_cons_of_ne_nil _ _ hJne] at hc
          rw [← pyStrip_data _ hJ] at hc
          exact stripChars_last _ c hc
      rw [hself, ← hdata]
      rfl

theorem getText_trimmed (h : Html) : pyStrip (getText h) = getText h := by
  rw [getText]
  apply pyJoin_space_trimmed
  intro p hp
  have hmem := List.mem_filter.1 hp
  obtain ⟨q, -, rfl⟩ := List.mem_map.1 hmem.1
  refine ⟨pyStrip_idem q, ?_⟩
  have := hmem.2
  simpa using this

theorem try_name_selectors_trimmed (post : Html) (sels : List Sel) :
    pyStrip (try_name_selectors post sels) = try_name_selectors post sels := by
  induction sels with
  | nil => exact (by decide : pyStrip "N/A" = "N/A")
  | cons sel rest ih =>
    rw [try_name_selectors]
    split
    · dsimp only
      split
      · exact getText_trimmed _
      · exact ih
    · exact ih

theorem extract_name_trimmed (post : Html) :
    pyStrip (extract_name post) = extract_name post := by
  rw [extract_name]
  split
  · dsimp only
    split
    · exact getText_trimmed _
    · exact try_name_selectors_trimmed post name_selectors
  · exact try_name_selectors_trimmed post name_selectors

/-- What a successfully built record contains. -/
theorem build_record_some (i : Nat) (post : Html) (r : PostRecord)
    (h : build_record i post = some r) :
    r.post_index = some (i + 1) ∧ r.name = pyStrip (extract_name post) ∧
    extract_name post ≠ "" ∧ extract_name post ≠ "N/A" ∧
    pyStrip (extract_name post) ≠ "" := by
  by_cases hg : extract_name post ≠ "" ∧ extract_name post ≠ "N/A" ∧
      pyStrip (extract_name post) ≠ ""
  · rw [build_record, if_pos hg] at h
    obtain rfl := Option.some.inj h
    exact ⟨rfl, rfl, hg.1, hg.2.1, hg.2.2⟩
  · rw [build_record, if_neg hg] at h
    cases h

/-- A failed guard builds nothing. -/
theorem build_record_none (i : Nat) (post : Html)
    (h : extract_name post = "" ∨ extract_name post = "N/A" ∨
      pyStrip (extract_name post) = "") :
    build_record i post = none := by
  rw [build_record, if_neg]
  intro ⟨h1, h2, h3⟩
  rcases h with h | h | h
  · exact h1 h
  · exact h2 h
  · exact h3 h

/-- Every record of the enumeration loop comes from the container at its
index, offset by the loop's starting counter. -/
theorem extract_loop_spec (posts : List Html) (k : Nat) (r : PostRecord)
    (hr : r ∈ extract_loop k posts) :
    ∃ i post, posts[i]? = some post ∧ r.post_index = some (k + i + 1) ∧
      build_record (k + i) post = some r := by
  induction posts generalizing k with
  | nil => cases hr
  | cons p rest ih =>
    rw [extract_loop] at hr
    cases hb : build_record k p with
    | some r0 =>
      rw [hb] at hr
      rcases List.mem_cons.1 hr with hre | hmem
      · refine ⟨0, p, by simp, ?_, ?_⟩
        · rw [hre, (build_record_some k p r0 hb).1]
        · have harg : k + 0 = k := Nat.add_zero k
          rw [harg, hre]
          exact hb
      · obtain ⟨i, post, hpost, hidx, hbr⟩ := ih (k + 1) hmem
        refine ⟨i + 1, post, by simpa using hpost, ?_, ?_⟩
        · rw [hidx]
          congr 1
          omega
        · have harg : k + (i + 1) = k + 1 + i := by omega
          rw [harg]
          exact hbr
    | none =>
      rw [hb] at hr
      obtain ⟨i, post, hpost, hidx, hbr⟩ := ih (k + 1) hr
      refine ⟨i + 1, post, by simpa using hpost, ?_, ?_⟩
      · rw [hidx]
        congr 1
        omega
      · have harg : k + (i + 1) = k + 1 + i := by omega
        rw [harg]
        exact hbr

/-- C1: every emitted record's Name is non-empty, non-sentinel and trimmed,
and comes from the container at position PostIndex − 1 of the enumeration
(1-based, counting skipped containers); a container whose resolved Name is
empty, the sentinel, or whitespace-only contributes no record with its
index. -/
theorem extract_linkedin_data_spec (doc : List Html) :
    (∀ r ∈ extract_linkedin_data doc,
      (r.name ≠ "" ∧ r.name ≠ "N/A" ∧ pyStrip r.name = r.name) ∧
      ∃ i post, (post_containers doc)[i]? = some post ∧
        r.post_index = some (i + 1) ∧ build_record i post = some r) ∧
    (∀ (i : Nat) (post : Html), (post_containers doc)[i]? = some post →
      (extract_name post = "" ∨ extract_name post = "N/A" ∨
        pyStrip (extract_name post) = "") →
      ∀ r ∈ extract_linkedin_data doc, r.post_index ≠ some (i + 1)) := by
  constructor
  · intro r hr
    obtain ⟨i, post, hpost, hidx, hbr⟩ :=
      extract_loop_spec (post_containers doc) 0 r hr
    rw [Nat.zero_add] at hidx hbr
    have hfields := build_record_some i post r hbr
    refine ⟨⟨?_, ?_, ?_⟩, i, post, hpost, hidx, hbr⟩
    · rw [hfields.2.1]
      exact hfields.2.2.2.2
    · rw [hfields.2.1, extract_name_trimmed post]
      exact hfields.2.2.2.1
    · rw [hfields.2.1]
      exact pyStrip_idem _
  · intro i post hpost hbad r hr hidx
    obtain ⟨j, post', hpost', hidx', hbr'⟩ :=
      extract_loop_spec (post_containers doc) 0 r hr
    rw [Nat.zero_add] at hidx' hbr'
    rw [hidx'] at hidx
    have hij : j = i := by
      have := Option.some.inj hidx
      omega
    rw [hij] at hpost' hbr'
    rw [hpost] at hpost'
    obtain rfl := Option.some.inj hpost'
    rw [build_record_none i post hbad] at hbr'
    cases hbr'

/-- The record the Jane Doe fragment produces, named. -/
def jane_record : PostRecord :=
  { name := "Jane Doe", title := "No title found", period := "N/A",
    details := "N/A", post_index := some 1 }

/-- Witness for C1 on the Jane Doe document. -/
theorem extract_linkedin_data_spec_witness :
    jane_record ∈ extract_linkedin_data janeDoeDoc ∧
    ((jane_record.name ≠ "" ∧ jane_record.name ≠ "N/A" ∧
        pyStrip jane_record.name = jane_record.name) ∧
      ∃ i post, (post_containers janeDoeDoc)[i]? = some post ∧
        jane_record.post_index = some (i + 1) ∧
        build_record i post = some jane_record) :=
  ⟨by decide,
    (extract_linkedin_data_spec janeDoeDoc).1 jane_record (by decide)⟩
